import Mathlib

/-!
Verification development for the nkbip_converter repository.

This file gives a shallow embedding, in Lean 4, of the pure core of the
converter: slug derivation (`clean_tag`), the NKBIP-01 tag builder and
validators (`src/modules/nkbip01_tags.py`), the tag utilities
(`src/modules/tag_utils.py`), the section organizer
(`src/nkbip_converter.py`) and the AsciiDoc heading parser
(`src/modules/adoc_parser.py`).

Conventions of the embedding:
- A Python tag (a list of strings) is `List String`; a tag set is
  `List (List String)` (abbreviated `Tags`).
- Python functions that can raise (`IndexError` from `tag[0]` /
  `tag_dict[k][0]` on malformed tags) are embedded with an `Option`
  result; `none` is the raising run.
- Python functions that mutate their list argument in place and return
  it (`list.append` / `list.insert` followed by `return tags`) are
  embedded as pure functions whose value is, at the same time, the
  returned list and the post-call state of the caller's argument.
- The character-level primitives (`str.lower`, `re` classes `\w` and
  `\s`, `str.strip`) are modelled on their ASCII behaviour, which is
  all the repository's own tag material exercises.
-/

/-- Python tag: a list of strings, e.g. `["d", "my-slug"]`. -/
abbrev Tag := List String

/-- Python tag set: an ordered list of tags. -/
abbrev Tags := List (List String)

/-- ASCII model of Python `str.lower` applied to one character: the
codepoints 65-90 (`A`-`Z`) shift by 32, everything else is unchanged. -/
def pyLowerChar (c : Char) : Char :=
  if 65 ≤ c.toNat ∧ c.toNat ≤ 90 then Char.ofNat (c.toNat + 32) else c

/-- ASCII model of the regex class `\s` (also Python `str.strip()` whitespace). -/
def isPySpace (c : Char) : Bool :=
  c = ' ' || c = '\t' || c = '\n' || c = '\x0b' || c = '\x0c' || c = '\r'

/-- ASCII model of the regex word class `\w`: digits (codepoints 48-57),
upper-case letters (65-90), lower-case letters (97-122), underscore. -/
def isWordChar (c : Char) : Bool :=
  (48 ≤ c.toNat && c.toNat ≤ 57) || (65 ≤ c.toNat && c.toNat ≤ 90) ||
  (97 ≤ c.toNat && c.toNat ≤ 122) || c = '_'

/-- A character kept by `re.sub(r"[^\w\s-]", "", ...)` in `clean_tag`. -/
def keepChar (c : Char) : Bool :=
  isWordChar c || isPySpace c || c = '-'

/-- A character matched by the class `[-\s]` in `clean_tag`. -/
def isDS (c : Char) : Bool :=
  c = '-' || isPySpace c

/-- Model of `re.sub(r"[-\s]+", "-", ...)`: every maximal run of
hyphen/whitespace characters collapses to a single hyphen. -/
def collapseDS : List Char → List Char
  | [] => []
  | [c] => if isDS c then ['-'] else [c]
  | a :: b :: rest =>
    if isDS a then
      (if isDS b then collapseDS (b :: rest) else '-' :: collapseDS (b :: rest))
    else a :: collapseDS (b :: rest)

/-- Model of Python `str.strip("-")`: drop leading and trailing hyphens. -/
def stripDash (cs : List Char) : List Char :=
  (cs.dropWhile (fun c => c == '-')).rdropWhile (fun c => c == '-')

/-- Character-list core of `clean_tag` (`src/modules/nkbip01_tags.py` lines
9-15 and, textually identical, `src/modules/tag_utils.py` lines 18-24):
lowercase, drop characters outside `[\w\s-]`, collapse `[-\s]+` runs to a
single hyphen, strip outer hyphens. -/
def cleanChars (cs : List Char) : List Char :=
  stripDash (collapseDS ((cs.map pyLowerChar).filter keepChar))

/-- `clean_tag` from the source, on Lean strings. -/
def clean_tag (s : String) : String :=
  String.mk (cleanChars s.data)

/-- `MIME_TYPES` dict of `src/modules/nkbip01_tags.py`; `none` is a missing key. -/
def MIME_TYPES (k : String) : Option String :=
  if k = ("index") then some ("application/json")
  else if k = ("asciidoc") then some ("text/asciidoc")
  else if k = ("markdown") then some ("text/markdown")
  else if k = ("plain") then some ("text/plain")
  else if k = ("html") then some ("text/html")
  else none

/-- `NOSTR_CATEGORIES["index"]`. -/
def NOSTR_CATEGORIES_index : String := "meta-data/index/replaceable"

/-- `NOSTR_CATEGORIES["content"]`. -/
def NOSTR_CATEGORIES_content : String := "article/publication-content/replaceable"

/-- `NOSTR_CATEGORIES["external"]`. -/
def NOSTR_CATEGORIES_external : String := "external-content/index/replaceable"

/-- `create_reference_tag` (`src/modules/tag_utils.py` lines 32-40, same in
`nkbip01_tags.py` lines 17-22): the NIP-62 `a` tag. -/
def create_reference_tag (kind : Nat) (pubkey d_tag event_id relay_hint : String) : Tag :=
  ["a", toString kind ++ (":") ++ pubkey ++ (":") ++ d_tag, relay_hint, event_id]

/-- The optional-metadata dict read by `create_index_tags`; each field models
presence (`some`) or absence (`none`) of the corresponding key. -/
structure Metadata where
  summary : Option String
  image : Option String
  published_on : Option String
  published_by : Option String
  source : Option String
  doi : Option String
  isbn : Option String
  tags : Option (List String)
  additional_authors : Option (List String)
  deriving DecidableEq

/-- One tag for a present optional metadata key, nothing for an absent one. -/
def optTag (k : String) (v : Option String) : Tags :=
  match v with
  | some s => [[k, s]]
  | none => []

/-- The nine unconditional tags built first by `create_index_tags`
(`src/modules/nkbip01_tags.py` lines 72-82). -/
def indexBaseTags (title d_tag auto_update publication_type language version : String)
    (external : Bool) : Tags :=
  [["d", d_tag],
   ["title", title],
   ["auto-update", auto_update],
   ["type", publication_type],
   ["m", "application/json"],
   ["M", if external then NOSTR_CATEGORIES_external else NOSTR_CATEGORIES_index],
   ["l", language ++ (", ISO-639-1")],
   ["reading-direction", "left-to-right, top-to-bottom"],
   ["version", version]]

/-- The `if author:` block (line 85): Python truthiness, so `None` and the
empty string both add nothing. -/
def authorPart (author : Option String) : Tags :=
  match author with
  | some a => if a = ("") then [] else [["author", a]]
  | none => []

/-- The `if external:` block (line 89). -/
def externalPart (external : Bool) : Tags :=
  if external then [["external", "true"]] else []

/-- The `if metadata:` block (lines 93-123), key by key in source order.
`doi` adds `i` then `k`; `isbn` adds `i` and adds `k` only when no `doi`
key exists; `tags` and `additional_authors` map over their lists. -/
def metadataPart (md : Metadata) : Tags :=
  optTag ("summary") md.summary ++
  optTag ("image") md.image ++
  optTag ("published_on") md.published_on ++
  optTag ("published_by") md.published_by ++
  optTag ("source") md.source ++
  (match md.doi with
   | some v => [["i", ("doi:") ++ v], ["k", "doi"]]
   | none => []) ++
  (match md.isbn with
   | some v => [["i", ("isbn:") ++ v]] ++ (if md.doi = none then [["k", "isbn"]] else [])
   | none => []) ++
  (match md.tags with
   | some ts => ts.map (fun t => ["t", t])
   | none => []) ++
  (match md.additional_authors with
   | some as' => as'.map (fun a => ["author", a])
   | none => [])

/-- The whole `if metadata:` guard: nothing for Python's falsy `None`. -/
def indexMetadataTags (metadata : Option Metadata) : Tags :=
  match metadata with
  | some md => metadataPart md
  | none => []

/-- `NKBIP01Tags.create_index_tags` (`src/modules/nkbip01_tags.py` lines
50-125).  A `none` metadata models Python's falsy `None`/empty dict (an
all-`none` `Metadata` yields the same tags, as in the source). -/
def NKBIP01Tags.create_index_tags (title d_tag : String) (author : Option String)
    (publication_type auto_update language version : String)
    (external : Bool) (metadata : Option Metadata) : Tags :=
  indexBaseTags title d_tag auto_update publication_type language version external ++
  authorPart author ++
  externalPart external ++
  indexMetadataTags metadata

/-- A wikilink dict consumed by `create_content_tags`: `link["term"]` is a
required key, the other three are read with `.get(..., "")`. -/
structure Wikilink where
  term : String
  pubkey : Option String
  relay : Option String
  event_id : Option String
  deriving DecidableEq

/-- The `if wikilinks:` block of `create_content_tags` (lines 152-162):
`none` models Python `None`; mapping over a present empty list adds
nothing, exactly as the falsy `[]` does in the source. -/
def wikilinkTags (wikilinks : Option (List Wikilink)) : Tags :=
  match wikilinks with
  | some links =>
    links.map (fun l =>
      ["wikilink", l.term, l.pubkey.getD (""), l.relay.getD (""), l.event_id.getD ("")])
  | none => []

/-- `NKBIP01Tags.create_content_tags` (`src/modules/nkbip01_tags.py` lines
127-164). -/
def NKBIP01Tags.create_content_tags (title d_tag : String)
    (content_type language : String) (wikilinks : Option (List Wikilink)) : Tags :=
  [["d", d_tag],
   ["title", title],
   ["m", (MIME_TYPES content_type).getD ("text/plain")],
   ["M", NOSTR_CATEGORIES_content],
   ["l", language ++ (", ISO-639-1")]] ++
  wikilinkTags wikilinks

/-- `create_section_tags` (`src/modules/tag_utils.py` lines 43-56); the
`content_type`/`language`/`wikilinks` arguments of `create_content_tags`
are left at their defaults there. -/
def create_section_tags (doc_title section_title : String)
    (_doc_author : Option String) (namespaced : Bool) : Tags :=
  NKBIP01Tags.create_content_tags section_title
    (if namespaced then clean_tag doc_title ++ ("-") ++ clean_tag section_title
     else clean_tag section_title)
    ("asciidoc") ("en") none

/-- The fields of the signed section event read by `add_reference_to_index`. -/
structure EventRef where
  kind : Nat
  pubkey : String
  id : String
  deriving DecidableEq

/-- `add_reference_to_index` (`src/modules/tag_utils.py` lines 74-88).  The
source appends to `index_tags` in place (`index_tags.append(ref_tag)`) and
returns the same object, so this value is both the return value and the
post-call state of the caller's list. -/
def add_reference_to_index (index_tags : Tags) (section_event : EventRef)
    (d_tag relay : String) : Tags :=
  index_tags ++ [create_reference_tag section_event.kind section_event.pubkey
    d_tag section_event.id relay]

/-- The scan of `add_derivative_work_tags` lines 177-184: find the index
right after the first `auto-update` tag, defaulting to the list's length.
A `none` result is the `IndexError` Python raises at `tag[0]` when the scan
meets an empty tag first. -/
def findInsertIdx : Tags → Option Nat
  | [] => some 0
  | t :: rest =>
    match t with
    | [] => none
    | x :: _ =>
      if x = ("auto-update") then some 1
      else (findInsertIdx rest).map (fun n => n + 1)

/-- Python `list.insert(i, a)` (with `0 ≤ i`, clamping at the end). -/
def pyInsert (l : Tags) (i : Nat) (a : Tag) : Tags :=
  l.take i ++ a :: l.drop i

/-- The `E` tag built at lines 188-190; `if relay_url:` is Python
truthiness, so `None` and `""` both leave the short form. -/
def derivativeETag (original_author_pubkey original_event_id : String)
    (relay_url : Option String) : Tag :=
  match relay_url with
  | some r =>
    if r = ("") then ["E", original_event_id]
    else ["E", original_event_id, r, original_author_pubkey]
  | none => ["E", original_event_id]

/-- `NKBIP01Tags.add_derivative_work_tags` (`src/modules/nkbip01_tags.py`
lines 166-195).  The source inserts into `tags` in place
(`tags.insert(insert_index, p_tag)`; `tags.insert(insert_index + 1, e_tag)`)
and returns the same object, so a `some` value is both the return value and
the post-call state of the caller's list; `none` is the raising run. -/
def NKBIP01Tags.add_derivative_work_tags (tags : Tags)
    (original_author_pubkey original_event_id : String)
    (relay_url : Option String) : Option Tags :=
  (findInsertIdx tags).map (fun i =>
    pyInsert (pyInsert tags i ["p", original_author_pubkey]) (i + 1)
      (derivativeETag original_author_pubkey original_event_id relay_url))

/-- The dict comprehension `{tag[0]: tag[1:] for tag in tags}` as a lookup:
later tags override earlier ones, the value is the tag's tail.  Callers
guard the empty-tag `IndexError` separately. -/
def tagDict (tags : Tags) (k : String) : Option (List String) :=
  (tags.reverse.find? (fun t => t.head? == some k)).map (fun t => t.tail)

/-- `tag_dict[k][0]` on an optional dict entry: absent key contributes the
given default error list, an entry with an empty value list raises
(`none`), otherwise the check `f` runs on the first value. -/
def checkVal (v : Option (List String)) (f : String → List String) :
    Option (List String) :=
  match v with
  | none => some []
  | some [] => none
  | some (x :: _) => some (f x)

/-- The p/E ordering scan of `validate_index_tags` lines 228-234: walking
the tags with the index of the last `p` tag seen; every `E` tag after a
`p` tag that is not at `p_index + 1` adds one violation. -/
def peErrors : Tags → Option Nat → Nat → List String
  | [], _, _ => []
  | t :: rest, pIdx, i =>
    if t.head? == some ("p") then peErrors rest (some i) (i + 1)
    else
      match pIdx with
      | some p =>
        if t.head? == some ("E") && !(i = p + 1) then
          ("E tag must immediately follow p tag") :: peErrors rest pIdx (i + 1)
        else peErrors rest pIdx (i + 1)
      | none => peErrors rest pIdx (i + 1)

/-- The `Missing required tag:` scan over a required-key list, in order. -/
def requiredErrors (tags : Tags) (required : List String) : List String :=
  required.filterMap (fun r =>
    if (tagDict tags r).isNone then some (("Missing required tag: ") ++ r) else none)

/-- `NKBIP01Tags.validate_index_tags` (`src/modules/nkbip01_tags.py` lines
197-236).  `none` is the raising run (`IndexError` from an empty tag in the
dict comprehension, or from `tag_dict["auto-update"][0]` /
`tag_dict["m"][0]` on a value-less tag); otherwise the pair
`(len(errors) == 0, errors)` with the violations in source order. -/
def NKBIP01Tags.validate_index_tags (tags : Tags) : Option (Bool × List String) :=
  if tags.any (fun t => t.isEmpty) then none
  else
    (checkVal (tagDict tags ("auto-update")) (fun v =>
      if v = ("yes") || v = ("ask") || v = ("no") then []
      else [("auto-update must be \x27yes\x27, \x27ask\x27, or \x27no\x27")])).bind
    (fun auErrs =>
      (checkVal (tagDict tags ("m")) (fun v =>
        if v = ("application/json") then []
        else [("Index events must have MIME type \x27application/json\x27")])).map
      (fun mErrs =>
        let errors :=
          requiredErrors tags ["d", "title", "auto-update", "m", "M"] ++
          auErrs ++ mErrs ++
          (if tags.any (fun t => t.head? == some ("a")) then []
           else [("Index must include at least one \x27a\x27 tag reference")]) ++
          peErrors tags none 0
        (errors.isEmpty, errors)))

/-- `NKBIP01Tags.validate_content_tags` (`src/modules/nkbip01_tags.py`
lines 238-253); `none` is the `IndexError` on an empty tag. -/
def NKBIP01Tags.validate_content_tags (tags : Tags) : Option (Bool × List String) :=
  if tags.any (fun t => t.isEmpty) then none
  else
    let errors := requiredErrors tags ["d", "title"]
    some (errors.isEmpty, errors)

/-- The language-tag fix of `upgrade_legacy_tags` lines 280-285: replace
the first `l` tag by `["l", lang_value + ", ISO-639-1"]`. -/
def replaceFirstL : Tags → String → Tags
  | [], _ => []
  | t :: rest, lv =>
    if t.head? == some ("l") then ("l" :: [lv ++ (", ISO-639-1")]) :: rest
    else t :: replaceFirstL rest lv

/-- Lines 262-267 of `upgrade_legacy_tags`: append the missing MIME tag. -/
def upgradeStep1 (tags : Tags) (dict : String → Option (List String)) (event_kind : Nat) : Tags :=
  if (dict ("m")).isNone then
    tags ++ [["m", if event_kind = 30040 then ("application/json") else ("text/asciidoc")]]
  else tags

/-- Lines 269-275 of `upgrade_legacy_tags`: append the missing `M` tag; for
kind 30040 the category depends on `tag_dict["external"][0] == "true"`,
whose read raises (`none`) on a value-less `external` tag. -/
def upgradeStep2 (t1 : Tags) (dict : String → Option (List String)) (event_kind : Nat) :
    Option Tags :=
  if (dict ("M")).isNone then
    if event_kind = 30040 then
      match dict ("external") with
      | none => some (t1 ++ [["M", NOSTR_CATEGORIES_index]])
      | some [] => none
      | some (v :: _) =>
        some (t1 ++ [["M", if v = ("true") then NOSTR_CATEGORIES_external
                           else NOSTR_CATEGORIES_index]])
    else some (t1 ++ [["M", NOSTR_CATEGORIES_content]])
  else some t1

/-- Lines 277-287 of `upgrade_legacy_tags`: fix or append the language tag
(`lang_value = tag_dict["l"][0]`, raising on a value-less `l` tag; the
first `l` tag is rewritten when `"ISO-639-1"` is not a substring). -/
def upgradeStep3 (t2 : Tags) (dict : String → Option (List String)) : Option Tags :=
  match dict ("l") with
  | none => some (t2 ++ [["l", "en, ISO-639-1"]])
  | some [] => none
  | some (lv :: _) =>
    if (("ISO-639-1").data) <:+: lv.data then some t2
    else some (replaceFirstL t2 lv)

/-- Lines 289-295 of `upgrade_legacy_tags`: append the missing
reading-direction (index kind only) and version tags. -/
def upgradeStep45 (t3 : Tags) (dict : String → Option (List String)) (event_kind : Nat) :
    Tags :=
  let t4 :=
    if event_kind = 30040 && (dict ("reading-direction")).isNone then
      t3 ++ [["reading-direction", "left-to-right, top-to-bottom"]]
    else t3
  if (dict ("version")).isNone then t4 ++ [["version", "1"]] else t4

/-- `upgrade_legacy_tags` (`src/modules/nkbip01_tags.py` lines 256-297):
`tag_dict` is computed once from the original list, then the four steps
above run in source order.  The source mutates `tags` in place and returns
the same object, so a `some` value is both the return value and the
post-call state of the caller's list; `none` is the raising run. -/
def upgrade_legacy_tags (tags : Tags) (event_kind : Nat) : Option Tags :=
  if tags.any (fun t => t.isEmpty) then none
  else
    (upgradeStep2 (upgradeStep1 tags (tagDict tags) event_kind) (tagDict tags)
        event_kind).bind
      (fun t2 => (upgradeStep3 t2 (tagDict tags)).map
        (fun t3 => upgradeStep45 t3 (tagDict tags) event_kind))


/-- One parsed section dict `{"title", "level", "content"}` of
`src/modules/adoc_parser.py`. -/
structure Sec where
  level : Nat
  title : String
  content : String
  deriving DecidableEq

/-- A level-2 section dict `{"title", "content"}` built by the organizer. -/
structure L2Sec where
  title : String
  content : String
  deriving DecidableEq

/-- A level-1 group dict of `organize_sections`. -/
structure SectionGroup where
  title : String
  content : String
  is_root : Bool
  l2_sections : List L2Sec
  deriving DecidableEq

/-- The literal heading markup re-inserted when a level-3+ section is folded
into the current level-2 section's body (`src/nkbip_converter.py` lines
277-279 and 299-301): `"\n\n" + "=" * level + " " + title + "\n" + content`. -/
def foldHeading (level : Nat) (title content : String) : String :=
  ("\n\n") ++ String.mk (List.replicate level '=') ++ (" ") ++ title ++ ("\n") ++ content

/-- Append the pending level-2 section, if any, to a group's children. -/
def flushL2 (g : SectionGroup) (cur2 : Option L2Sec) : SectionGroup :=
  match cur2 with
  | some c => { g with l2_sections := g.l2_sections ++ [c] }
  | none => g

/-- The loop of `_group_l2_sections` (`src/nkbip_converter.py` lines
289-306), with the accumulated list and the pending section as state.
A dict is always truthy in Python, so the pending section is `none`
exactly when `current_section` is `None`. -/
def groupL2Loop : List Sec → List L2Sec → Option L2Sec → List L2Sec
  | [], acc, cur =>
    (match cur with
     | some c => acc ++ [c]
     | none => acc)
  | s :: rest, acc, cur =>
    if s.level = 2 then
      groupL2Loop rest
        (match cur with
         | some c => acc ++ [c]
         | none => acc)
        (some ⟨s.title, s.content⟩)
    else if 2 < s.level then
      match cur with
      | some c =>
        groupL2Loop rest acc (some ⟨c.title, c.content ++ foldHeading s.level s.title s.content⟩)
      | none => groupL2Loop rest acc none
    else groupL2Loop rest acc cur

/-- `_group_l2_sections` (`src/nkbip_converter.py` lines 289-306). -/
def _group_l2_sections (sections : List Sec) : List L2Sec :=
  groupL2Loop sections [] none

/-- The main loop of `organize_sections` (`src/nkbip_converter.py` lines
250-286), with state `(organized, current_l1, current_l2, first_l1)`.
Level-1 sections flush and open a group; level-2 sections flush the pending
child and open a new one when a group is open; deeper sections fold into
the pending child; anything else (including a level-2 section before any
group) is dropped. -/
def orgLoop : List Sec → List SectionGroup → Option SectionGroup → Option L2Sec → Bool →
    List SectionGroup
  | [], org, cur1, cur2, _ =>
    (match cur1 with
     | some g => org ++ [flushL2 g cur2]
     | none => org)
  | s :: rest, org, cur1, cur2, first =>
    if s.level = 1 then
      orgLoop rest
        (match cur1 with
         | some g => org ++ [flushL2 g cur2]
         | none => org)
        (some ⟨s.title, s.content, first, []⟩) none false
    else if s.level = 2 then
      match cur1 with
      | some g => orgLoop rest org (some (flushL2 g cur2)) (some ⟨s.title, s.content⟩) first
      | none => orgLoop rest org none cur2 first
    else if 2 < s.level then
      match cur2 with
      | some c =>
        orgLoop rest org cur1 (some ⟨c.title, c.content ++ foldHeading s.level s.title s.content⟩)
          first
      | none => orgLoop rest org cur1 cur2 first
    else orgLoop rest org cur1 cur2 first

/-- `organize_sections` (`src/nkbip_converter.py` lines 233-286): if no
level-1 section exists, one virtual root group from the document title
holding `_group_l2_sections` of everything; otherwise the level-1 loop. -/
def organize_sections (doc_title : String) (sections : List Sec) : List SectionGroup :=
  if sections.any (fun s => s.level == 1) then orgLoop sections [] none none true
  else [⟨doc_title, "", true, _group_l2_sections sections⟩]

/-- Python `str.strip()` (ASCII whitespace model). -/
def pyStrip (s : String) : String :=
  String.mk (((s.data.dropWhile isPySpace).reverse.dropWhile isPySpace).reverse)

/-- Python `str.startswith(pre)`. -/
def pyStartsWith (s pre : String) : Bool :=
  pre.data.isPrefixOf s.data

/-- Python `line.split(" ")[0]`: the prefix up to the first space (the whole
string when it has no space). -/
def pySplitFirst (s : String) : String :=
  String.mk (s.data.takeWhile (fun c => !(c = ' ')))

/-- Python `heading.split(" ", 1)[1]` seen character-wise: everything after
the first space (callers guard with `" " in heading`). -/
def pySplitTailChars : List Char → List Char
  | [] => []
  | c :: rest => if c = ' ' then rest else pySplitTailChars rest

/-- Python `heading.split(" ", 1)[1]` on strings. -/
def pySplitTail (s : String) : String :=
  String.mk (pySplitTailChars s.data)

/-- The parsed document `{"title", "sections"}` of `parse_adoc_file`. -/
structure AdocDoc where
  title : String
  sections : List Sec
  deriving DecidableEq

/-- A section whose heading has been read and whose body lines are still
being collected (the state between two headings in the parse loop). -/
structure OpenSec where
  level : Nat
  title : String
  contentLines : List String
  deriving DecidableEq

/-- Close a section: its body is the collected lines joined by `"\n"` and
stripped, as at line 30 of `src/modules/adoc_parser.py`. -/
def closeSec (o : OpenSec) : Sec :=
  ⟨o.level, o.title, pyStrip (String.intercalate ("\n") o.contentLines)⟩

/-- Open a section from a heading line (`parse_adoc_section`,
`src/modules/adoc_parser.py` lines 11-16): the level counts the `=` run of
the **stripped** heading, the title is what follows the first space. -/
def openSecOfLine (l : String) : OpenSec :=
  ⟨(pySplitFirst (pyStrip l)).length,
   if (pyStrip l).data.contains ' ' then pyStrip (pySplitTail (pyStrip l)) else "",
   []⟩

/-- The section scan of `parse_adoc_file` (`src/modules/adoc_parser.py`
lines 65-83) joined with `parse_adoc_section` (lines 4-31), restructured as
a single line-by-line pass (the nested loop collects body lines up to the
next `=` line and returns control to the outer loop exactly there, so the
two loops together are this scan).  The outer loop's level test uses the
**raw** line (`len(line.split(" ")[0])`, newline terminator included if
present); only lines passing `level >= 2` open a section, a `=` line of
lower raw level closes the pending section without opening one, and any
other line joins the pending section's body. -/
def parseSections : List String → Option OpenSec → List Sec
  | [], cur =>
    (match cur with
     | some o => [closeSec o]
     | none => [])
  | l :: rest, cur =>
    if pyStartsWith l ("=") then
      if 2 ≤ (pySplitFirst l).length then
        match cur with
        | some o => closeSec o :: parseSections rest (some (openSecOfLine l))
        | none => parseSections rest (some (openSecOfLine l))
      else
        match cur with
        | some o => closeSec o :: parseSections rest none
        | none => parseSections rest none
    else
      match cur with
      | some o => parseSections rest (some { o with contentLines := o.contentLines ++ [l] })
      | none => parseSections rest none

/-- `parse_adoc_file` (`src/modules/adoc_parser.py` lines 34-91) on the
`readlines()` list of the file (each line normally keeps its trailing
newline, the embedding quantifies over arbitrary line lists).  The document
title is the first `"= "` line, stripped past the marker; the section scan
starts after the leading `:`-attribute lines.  The source never raises: a
document without level-2+ headings yields an empty `sections` list. -/
def parse_adoc_file (lines : List String) : AdocDoc :=
  ⟨(match lines.find? (fun l => pyStartsWith l ("= ")) with
    | some l => pyStrip (String.mk (l.data.drop 2))
    | none => ""),
   parseSections (lines.dropWhile (fun l => pyStartsWith l (":"))) none⟩

/-- Titles of the level-1 sections of a flat heading sequence, in order. -/
def l1Titles (sections : List Sec) : List String :=
  (sections.filter (fun s => s.level == 1)).map Sec.title

/-- Number of level-1 sections of a flat heading sequence. -/
def countL1 (sections : List Sec) : Nat :=
  (sections.filter (fun s => s.level == 1)).length

/-- The `is_root` flags `organize_sections` hands out for `n` groups when the
flag for the next group to open is `first`: the first gets `first`, the rest
get `false`. -/
def rootFlags : Nat → Bool → List Bool
  | 0, _ => []
  | n + 1, first => first :: List.replicate n false

/-- The identifier `main` reads back from an event's tags
(`src/nkbip_converter.py` line 576): the second entry of the first `d` tag. -/
def firstDTagValue (tags : Tags) : Option String :=
  (tags.find? (fun t => t.head? == some ("d"))).bind (fun t => t.get? 1)

/-- Position `j` holds the first `auto-update` tag of the list. -/
def isFirstAutoUpdate (tags : Tags) (j : Nat) : Prop :=
  (∃ t, tags[j]? = some t ∧ t.head? = some ("auto-update")) ∧
    ∀ k, k < j → ∀ t, tags[k]? = some t → t.head? ≠ some ("auto-update")

/-- ASCII punctuation (the Unicode punctuation categories restricted to
ASCII): codepoints 33-47, 58-64, 91-96 and 123-126. -/
def isAsciiPunct (c : Char) : Bool :=
  (33 ≤ c.toNat && c.toNat ≤ 47) || (58 ≤ c.toNat && c.toNat ≤ 64) ||
  (91 ≤ c.toNat && c.toNat ≤ 96) || (123 ≤ c.toNat && c.toNat ≤ 126)

/-- Two titles differ only in punctuation (position-wise): same length, and
at every position the characters agree or are both punctuation. -/
def differOnlyInPunct (s t : String) : Bool :=
  s.data.length == t.data.length &&
    (s.data.zip t.data).all (fun p => p.1 == p.2 || (isAsciiPunct p.1 && isAsciiPunct p.2))

/-- Punctuation that `clean_tag` strips: ASCII punctuation other than the
hyphen (codepoint 45) and the underscore (95), which the cleaner keeps. -/
def strippedPunct (c : Char) : Bool :=
  isAsciiPunct c && !(c.toNat == 45) && !(c.toNat == 95)

/-- Two titles differ only in stripped punctuation (position-wise). -/
def differOnlyInStrippedPunct (s t : String) : Bool :=
  s.data.length == t.data.length &&
    (s.data.zip t.data).all (fun p => p.1 == p.2 || (strippedPunct p.1 && strippedPunct p.2))

/-- No two adjacent characters of the list are both in the `[-\s]` class
(the shape of `clean_tag`'s intermediate result after run collapsing). -/
def noAdjDS : List Char → Bool
  | [] => true
  | [_] => true
  | a :: b :: rest => !(isDS a && isDS b) && noAdjDS (b :: rest)

/-! ## Theorems -/

theorem flushL2_title (g : SectionGroup) (cur2 : Option L2Sec) :
    (flushL2 g cur2).title = g.title := by
  cases cur2 <;> rfl

theorem flushL2_is_root (g : SectionGroup) (cur2 : Option L2Sec) :
    (flushL2 g cur2).is_root = g.is_root := by
  cases cur2 <;> rfl

theorem rootFlags_succ (n : Nat) (first : Bool) :
    rootFlags (n + 1) first = first :: List.replicate n false := rfl

theorem rootFlags_false (n : Nat) : rootFlags n false = List.replicate n false := by
  cases n with
  | zero => rfl
  | succ k => simp [rootFlags, List.replicate_succ]

theorem l1Titles_cons_l1 (s : Sec) (rest : List Sec) (h : s.level = 1) :
    l1Titles (s :: rest) = s.title :: l1Titles rest := by
  simp [l1Titles, List.filter_cons, h]

theorem l1Titles_cons_other (s : Sec) (rest : List Sec) (h : ¬s.level = 1) :
    l1Titles (s :: rest) = l1Titles rest := by
  simp [l1Titles, List.filter_cons, h]

theorem countL1_cons_l1 (s : Sec) (rest : List Sec) (h : s.level = 1) :
    countL1 (s :: rest) = countL1 rest + 1 := by
  simp [countL1, List.filter_cons, h]

theorem countL1_cons_other (s : Sec) (rest : List Sec) (h : ¬s.level = 1) :
    countL1 (s :: rest) = countL1 rest := by
  simp [countL1, List.filter_cons, h]

/-- The title projection of the level-1 loop: the groups already flushed,
then the open group, then one group per remaining level-1 section. -/
theorem orgLoop_map_title (rest : List Sec) :
    ∀ (org : List SectionGroup) (cur1 : Option SectionGroup) (cur2 : Option L2Sec)
      (first : Bool),
      (orgLoop rest org cur1 cur2 first).map SectionGroup.title =
        org.map SectionGroup.title ++
          (match cur1 with
           | some g => [g.title]
           | none => []) ++ l1Titles rest := by
  induction rest with
  | nil =>
    intro org cur1 cur2 first
    cases cur1 <;> simp [orgLoop, l1Titles, flushL2_title]
  | cons s rest ih =>
    intro org cur1 cur2 first
    by_cases h1 : s.level = 1
    · rw [l1Titles_cons_l1 s rest h1]
      cases cur1 <;>
        simp [orgLoop, h1, ih, flushL2_title]
    · by_cases h2 : s.level = 2
      · rw [l1Titles_cons_other s rest h1]
        cases cur1 <;>
          simp [orgLoop, h1, h2, ih, flushL2_title]
      · by_cases h3 : 2 < s.level
        · rw [l1Titles_cons_other s rest h1]
          cases cur2 <;>
            simp [orgLoop, h1, h2, h3, ih]
        · rw [l1Titles_cons_other s rest h1]
          simp [orgLoop, h1, h2, h3, ih]

/-- The `is_root` projection of the level-1 loop. -/
theorem orgLoop_map_is_root (rest : List Sec) :
    ∀ (org : List SectionGroup) (cur1 : Option SectionGroup) (cur2 : Option L2Sec)
      (first : Bool),
      (orgLoop rest org cur1 cur2 first).map SectionGroup.is_root =
        org.map SectionGroup.is_root ++
          (match cur1 with
           | some g => [g.is_root]
           | none => []) ++ rootFlags (countL1 rest) first := by
  induction rest with
  | nil =>
    intro org cur1 cur2 first
    cases cur1 <;> simp [orgLoop, countL1, rootFlags, flushL2_is_root]
  | cons s rest ih =>
    intro org cur1 cur2 first
    by_cases h1 : s.level = 1
    · rw [countL1_cons_l1 s rest h1]
      cases cur1 <;>
        simp [orgLoop, h1, ih, flushL2_is_root, rootFlags_false, rootFlags_succ]
    · by_cases h2 : s.level = 2
      · rw [countL1_cons_other s rest h1]
        cases cur1 <;>
          simp [orgLoop, h1, h2, ih, flushL2_is_root]
      · by_cases h3 : 2 < s.level
        · rw [countL1_cons_other s rest h1]
          cases cur2 <;>
            simp [orgLoop, h1, h2, h3, ih]
        · rw [countL1_cons_other s rest h1]
          simp [orgLoop, h1, h2, h3, ih]

/-- C1: for every document whose flat heading sequence contains at least one
level-2 heading and no level-1 heading, `organize_sections` produces exactly
one `SectionGroup`; that group has `is_root = true`, takes its title from
the document title, holds the level-2 grouping of all sections, and no
other group is produced. -/
theorem organize_sections_no_l1_single_root (doc_title : String) (sections : List Sec)
    (hL2 : ∃ s ∈ sections, s.level = 2) (hL1 : ∀ s ∈ sections, s.level ≠ 1) :
    organize_sections doc_title sections =
      [⟨doc_title, "", true, _group_l2_sections sections⟩] := by
  have hany : sections.any (fun s => s.level == 1) = false := by
    simp only [List.any_eq_false, beq_iff_eq]
    exact hL1
  simp [organize_sections, hany]

/-- Witness for C1 at a two-section document. -/
theorem organize_sections_no_l1_single_root_witness :
    (∃ s ∈ [(⟨2, "A", "a"⟩ : Sec), ⟨3, "D", "d"⟩], s.level = 2) ∧
      (∀ s ∈ [(⟨2, "A", "a"⟩ : Sec), ⟨3, "D", "d"⟩], s.level ≠ 1) ∧
      organize_sections ("Doc") [(⟨2, "A", "a"⟩ : Sec), ⟨3, "D", "d"⟩] =
        [⟨"Doc", "", true, _group_l2_sections [(⟨2, "A", "a"⟩ : Sec), ⟨3, "D", "d"⟩]⟩] :=
  ⟨by decide, by decide,
    organize_sections_no_l1_single_root ("Doc") _ (by decide) (by decide)⟩

/-- C2: for every document whose flat heading sequence contains `N ≥ 1`
level-1 headings, `organize_sections` produces exactly `N` groups, in
document order (their titles are the level-1 titles in sequence), and
exactly the first group has `is_root = true`. -/
theorem organize_sections_l1_groups (doc_title : String) (sections : List Sec)
    (N : Nat) (hN : countL1 sections = N) (hpos : 0 < N) :
    (organize_sections doc_title sections).length = N ∧
      (organize_sections doc_title sections).map SectionGroup.title =
        l1Titles sections ∧
      (organize_sections doc_title sections).map SectionGroup.is_root =
        true :: List.replicate (N - 1) false := by
  have hne : sections.filter (fun s => s.level == 1) ≠ [] := by
    intro h
    rw [countL1, h] at hN
    simp at hN
    omega
  obtain ⟨x, hx⟩ := List.exists_mem_of_ne_nil _ hne
  have hx' := List.mem_filter.mp hx
  have hany : sections.any (fun s => s.level == 1) = true :=
    List.any_eq_true.mpr ⟨x, hx'.1, hx'.2⟩
  have horg : organize_sections doc_title sections = orgLoop sections [] none none true := by
    simp [organize_sections, hany]
  obtain ⟨k, rfl⟩ : ∃ k, N = k + 1 := ⟨N - 1, by omega⟩
  have htitle : (organize_sections doc_title sections).map SectionGroup.title =
      l1Titles sections := by
    rw [horg]
    simpa using orgLoop_map_title sections [] none none true
  refine ⟨?_, htitle, ?_⟩
  · have hlen := congrArg List.length htitle
    rw [List.length_map] at hlen
    have : (l1Titles sections).length = countL1 sections := by
      simp [l1Titles, countL1]
    rw [hlen, this, hN]
  · rw [horg]
    have := orgLoop_map_is_root sections [] none none true
    simp only [List.map_nil, List.nil_append] at this
    rw [this, hN]
    simp [rootFlags_succ]

/-- Witness for C2 at a three-section document with two level-1 headings. -/
theorem organize_sections_l1_groups_witness :
    countL1 [(⟨1, "G1", "c1"⟩ : Sec), ⟨2, "A", "a"⟩, ⟨1, "G2", "c2"⟩] = 2 ∧ 0 < 2 ∧
      ((organize_sections ("T") [(⟨1, "G1", "c1"⟩ : Sec), ⟨2, "A", "a"⟩, ⟨1, "G2", "c2"⟩]).length = 2 ∧
        (organize_sections ("T") [(⟨1, "G1", "c1"⟩ : Sec), ⟨2, "A", "a"⟩, ⟨1, "G2", "c2"⟩]).map
            SectionGroup.title = l1Titles [(⟨1, "G1", "c1"⟩ : Sec), ⟨2, "A", "a"⟩, ⟨1, "G2", "c2"⟩] ∧
        (organize_sections ("T") [(⟨1, "G1", "c1"⟩ : Sec), ⟨2, "A", "a"⟩, ⟨1, "G2", "c2"⟩]).map
            SectionGroup.is_root = true :: List.replicate (2 - 1) false) :=
  ⟨by decide, by decide,
    organize_sections_l1_groups ("T") _ 2 (by decide) (by decide)⟩

/-- C10: for every input, the first nine tags of `create_index_tags` are
exactly `d`, `title`, `auto-update`, `type`, `m`, `M`, `l`,
`reading-direction`, `version`, in that fixed order, and everything after
them is exactly the optional material (author, external flag, metadata). -/
theorem create_index_tags_first_nine (title d_tag : String) (author : Option String)
    (publication_type auto_update language version : String) (external : Bool)
    (metadata : Option Metadata) :
    (NKBIP01Tags.create_index_tags title d_tag author publication_type auto_update
        language version external metadata).take 9 =
      [["d", d_tag], ["title", title], ["auto-update", auto_update],
       ["type", publication_type], ["m", "application/json"],
       ["M", if external then NOSTR_CATEGORIES_external else NOSTR_CATEGORIES_index],
       ["l", language ++ (", ISO-639-1")],
       ["reading-direction", "left-to-right, top-to-bottom"],
       ["version", version]] ∧
      (NKBIP01Tags.create_index_tags title d_tag author publication_type auto_update
        language version external metadata).drop 9 =
        authorPart author ++ externalPart external ++ indexMetadataTags metadata := by
  have hassoc : NKBIP01Tags.create_index_tags title d_tag author publication_type
      auto_update language version external metadata =
      indexBaseTags title d_tag auto_update publication_type language version external ++
        (authorPart author ++ externalPart external ++ indexMetadataTags metadata) := by
    simp [NKBIP01Tags.create_index_tags]
  constructor
  · rw [hassoc]
    exact List.take_left' rfl
  · rw [hassoc]
    exact List.drop_left' rfl

theorem findInsertIdx_le (tags : Tags) :
    ∀ i, findInsertIdx tags = some i → i ≤ tags.length := by
  induction tags with
  | nil =>
    intro i h
    simp [findInsertIdx] at h
    omega
  | cons t rest ih =>
    intro i h
    cases t with
    | nil => simp [findInsertIdx] at h
    | cons x xs =>
      by_cases hx : x = ("auto-update")
      · simp [findInsertIdx, hx] at h
        simp [← h]
      · simp only [findInsertIdx, if_neg hx, Option.map_eq_some'] at h
        obtain ⟨i', hi', rfl⟩ := h
        have := ih i' hi'
        simp
        omega

theorem findInsertIdx_firstAuto (tags : Tags) :
    ∀ (j i : Nat), isFirstAutoUpdate tags j → findInsertIdx tags = some i → i = j + 1 := by
  induction tags with
  | nil =>
    intro j i hfa _
    obtain ⟨⟨t, ht, _⟩, _⟩ := hfa
    simp at ht
  | cons t rest ih =>
    intro j i hfa hfi
    cases t with
    | nil => simp [findInsertIdx] at hfi
    | cons x xs =>
      by_cases hx : x = ("auto-update")
      · simp [findInsertIdx, hx] at hfi
        cases j with
        | zero => omega
        | succ j' =>
          exfalso
          exact hfa.2 0 (by omega) (x :: xs) (by simp) (by simp [hx])
      · simp only [findInsertIdx, if_neg hx, Option.map_eq_some'] at hfi
        obtain ⟨i', hi', rfl⟩ := hfi
        cases j with
        | zero =>
          exfalso
          obtain ⟨⟨t, ht, hhead⟩, _⟩ := hfa
          simp at ht
          rw [← ht] at hhead
          simp at hhead
          exact hx hhead
        | succ j' =>
          have hfa' : isFirstAutoUpdate rest j' := by
            obtain ⟨⟨t, ht, hhead⟩, hmin⟩ := hfa
            refine ⟨⟨t, by simpa using ht, hhead⟩, ?_⟩
            intro k hk u hu
            exact hmin (k + 1) (by omega) u (by simpa using hu)
          have := ih j' i' hfa' hi'
          omega

theorem pyInsert_pyInsert (l : Tags) (i : Nat) (a b : Tag) (h : i ≤ l.length) :
    pyInsert (pyInsert l i a) (i + 1) b = l.take i ++ a :: b :: l.drop i := by
  unfold pyInsert
  have hlen : (l.take i).length = i := by
    simp [List.length_take]
    omega
  rw [show i + 1 = (l.take i).length + 1 by rw [hlen]]
  rw [List.take_append, List.drop_append]
  simp

/-- C3: whenever `add_derivative_work_tags` returns a result, the result
holds the original-author identity tag `["p", pk]` immediately before the
original-event pointer tag (the `E` tag), and when the input has a first
`auto-update` tag at position `j` the pair sits right after it (the `p` tag
lands at `j + 1`), no matter what other tags exist. -/
theorem add_derivative_work_tags_adjacent (tags : Tags) (pk eid : String)
    (relay : Option String) (res : Tags)
    (h : NKBIP01Tags.add_derivative_work_tags tags pk eid relay = some res) :
    ∃ i, res[i]? = some ["p", pk] ∧
      res[i + 1]? = some (derivativeETag pk eid relay) ∧
      ∀ j, isFirstAutoUpdate tags j → i = j + 1 := by
  unfold NKBIP01Tags.add_derivative_work_tags at h
  obtain ⟨i, hfi, hres⟩ := Option.map_eq_some'.mp h
  have hle := findInsertIdx_le tags i hfi
  rw [pyInsert_pyInsert tags i _ _ hle] at hres
  have hlen : (tags.take i).length = i := by
    simp [List.length_take]
    omega
  refine ⟨i, ?_, ?_, ?_⟩
  · rw [← hres, List.getElem?_append_right (by omega)]
    simp [hlen]
  · rw [← hres, List.getElem?_append_right (by omega)]
    simp [hlen]
  · intro j hj
    exact findInsertIdx_firstAuto tags j i hj hfi

/-- Witness for C3: a tag list with one `auto-update` tag followed by a
`title` tag; the pair is inserted at positions 1 and 2. -/
theorem add_derivative_work_tags_adjacent_witness :
    ∃ i, ([["auto-update", "yes"], ["p", "PK"], ["E", "EV"], ["title", "T"]] : Tags)[i]? =
        some ["p", "PK"] ∧
      ([["auto-update", "yes"], ["p", "PK"], ["E", "EV"], ["title", "T"]] : Tags)[i + 1]? =
        some (derivativeETag ("PK") ("EV") none) ∧
      ∀ j, isFirstAutoUpdate [["auto-update", "yes"], ["title", "T"]] j → i = j + 1 :=
  add_derivative_work_tags_adjacent [["auto-update", "yes"], ["title", "T"]]
    ("PK") ("EV") none _ rfl

theorem replaceFirstL_length (l : Tags) (v : String) :
    (replaceFirstL l v).length = l.length := by
  induction l with
  | nil => rfl
  | cons t rest ih =>
    rw [replaceFirstL]
    split <;> simp [ih]

/-- C9 counterexample: each of the three operations returns a list that
differs from the argument it received, and in the source that returned
list **is** the argument object (mutated by `append`/`insert`), so the
caller's list is changed by the call. -/
theorem pipeline_mutation_counterexample :
    add_reference_to_index [] ⟨30041, "pub", "id"⟩ ("d") ("r") ≠ ([] : Tags) ∧
      NKBIP01Tags.add_derivative_work_tags [] ("PK") ("EV") none ≠ some ([] : Tags) ∧
      upgrade_legacy_tags [] 30041 ≠ some ([] : Tags) := by
  refine ⟨?_, ?_, ?_⟩ <;> decide

/-- C9 amended: the three operations mutate the caller's list in place and
return it; the post-call state of the argument (equal to the returned
list) is the original extended, never the unchanged original —
`add_reference_to_index` appends exactly the reference tag,
`add_derivative_work_tags` lengthens the list by the two inserted tags,
and `upgrade_legacy_tags` never shortens it. -/
theorem pipeline_stage_growth (tags1 : Tags) (ev : EventRef) (d r : String)
    (tags2 : Tags) (pk eid : String) (relay : Option String) (res2 : Tags)
    (tags3 : Tags) (kind : Nat) (res3 : Tags) :
    add_reference_to_index tags1 ev d r =
        tags1 ++ [create_reference_tag ev.kind ev.pubkey d ev.id r] ∧
      (NKBIP01Tags.add_derivative_work_tags tags2 pk eid relay = some res2 →
        res2.length = tags2.length + 2) ∧
      (upgrade_legacy_tags tags3 kind = some res3 → tags3.length ≤ res3.length) := by
  refine ⟨rfl, ?_, ?_⟩
  · intro h
    unfold NKBIP01Tags.add_derivative_work_tags at h
    obtain ⟨i, hfi, hres⟩ := Option.map_eq_some'.mp h
    have hle := findInsertIdx_le tags2 i hfi
    rw [pyInsert_pyInsert tags2 i _ _ hle] at hres
    rw [← hres]
    simp [List.length_take, List.length_drop]
    omega
  · intro h
    simp only [upgrade_legacy_tags] at h
    split at h
    · exact absurd h (by simp)
    · obtain ⟨t2, h2, h3⟩ := Option.bind_eq_some.mp h
      obtain ⟨t3, h3', rfl⟩ := Option.map_eq_some'.mp h3
      have l1 : tags3.length ≤ (upgradeStep1 tags3 (tagDict tags3) kind).length := by
        rw [upgradeStep1]
        split <;> simp
      have l2 : (upgradeStep1 tags3 (tagDict tags3) kind).length ≤ t2.length := by
        rw [upgradeStep2] at h2
        split at h2
        · split at h2
          · split at h2
            · rw [← Option.some.inj h2]
              simp
            · exact absurd h2 (by simp)
            · rw [← Option.some.inj h2]
              simp
          · rw [← Option.some.inj h2]
            simp
        · rw [Option.some.inj h2]
      have l3 : t2.length ≤ t3.length := by
        rw [upgradeStep3] at h3'
        split at h3'
        · rw [← Option.some.inj h3']
          simp
        · exact absurd h3' (by simp)
        · split at h3'
          · rw [Option.some.inj h3']
          · rw [← Option.some.inj h3', replaceFirstL_length]
      have l45 : t3.length ≤ (upgradeStep45 t3 (tagDict tags3) kind).length := by
        rw [upgradeStep45]
        split <;> split <;> simp
      omega

/-- Witness for C9's growth statement at concrete calls. -/
theorem pipeline_stage_growth_witness :
    NKBIP01Tags.add_derivative_work_tags [["d", "x"]] ("PK") ("EV") none =
        some [["d", "x"], ["p", "PK"], ["E", "EV"]] ∧
      ([["d", "x"], ["p", "PK"], ["E", "EV"]] : Tags).length =
        ([["d", "x"]] : Tags).length + 2 ∧
      upgrade_legacy_tags [["d", "x"]] 30041 =
        some [["d", "x"], ["m", "text/asciidoc"], ["M", NOSTR_CATEGORIES_content],
          ["l", "en, ISO-639-1"], ["version", "1"]] ∧
      ([["d", "x"]] : Tags).length ≤
        ([["d", "x"], ["m", "text/asciidoc"], ["M", NOSTR_CATEGORIES_content],
          ["l", "en, ISO-639-1"], ["version", "1"]] : Tags).length :=
  ⟨by decide,
    (pipeline_stage_growth [] ⟨30041, "pub", "id"⟩ ("d") ("r") [["d", "x"]] ("PK") ("EV")
      none [["d", "x"], ["p", "PK"], ["E", "EV"]] [["d", "x"]] 30041
      [["d", "x"], ["m", "text/asciidoc"], ["M", NOSTR_CATEGORIES_content],
        ["l", "en, ISO-639-1"], ["version", "1"]]).2.1 (by decide),
    by decide,
    (pipeline_stage_growth [] ⟨30041, "pub", "id"⟩ ("d") ("r") [["d", "x"]] ("PK") ("EV")
      none [["d", "x"], ["p", "PK"], ["E", "EV"]] [["d", "x"]] 30041
      [["d", "x"], ["m", "text/asciidoc"], ["M", NOSTR_CATEGORIES_content],
        ["l", "en, ISO-639-1"], ["version", "1"]]).2.2 (by decide)⟩

theorem parseSections_no_heading (lines : List String)
    (h : ∀ l ∈ lines, ¬(pyStartsWith l ("=") = true ∧ 2 ≤ (pySplitFirst l).length)) :
    parseSections lines none = [] := by
  induction lines with
  | nil => rfl
  | cons l rest ih =>
    have hl := h l (List.mem_cons_self l rest)
    have ih' := ih (fun x hx => h x (List.mem_cons_of_mem l hx))
    by_cases hstart : pyStartsWith l ("=") = true
    · have h2 : ¬2 ≤ (pySplitFirst l).length := fun hh => hl ⟨hstart, hh⟩
      rw [parseSections, if_pos hstart, if_neg h2]
      exact ih'
    · rw [parseSections, if_neg hstart]
      exact ih'

/-- C7 counterexample: on a document with a title line and a body line but
zero headings of level ≥ 2, `parse_adoc_file` returns normally (there is no
`ParseError` anywhere in the source) with an empty section list, and the
pipeline then proceeds: `organize_sections` still produces the synthetic
root group, so `main`'s empty-organized abort never fires either. -/
theorem parse_no_l2_no_failure_counterexample :
    parse_adoc_file ["= Doc\n", "hello\n"] = ⟨"Doc", []⟩ ∧
      organize_sections ("Doc") [] = [⟨"Doc", "", true, []⟩] := by
  constructor <;> decide

/-- C7 amended: for every document whose lines contain no heading of level
≥ 2 (no `=`-line whose raw marker run has length ≥ 2), the Heading Parser
does **not** fail: it returns the document with an empty section list, and
`organize_sections` on that output still synthesizes the root group. -/
theorem parse_adoc_file_no_l2_returns (lines : List String)
    (h : ∀ l ∈ lines, ¬(pyStartsWith l ("=") = true ∧ 2 ≤ (pySplitFirst l).length)) :
    (parse_adoc_file lines).sections = [] ∧
      organize_sections (parse_adoc_file lines).title (parse_adoc_file lines).sections =
        [⟨(parse_adoc_file lines).title, "", true, []⟩] := by
  have hs : (parse_adoc_file lines).sections = [] := by
    rw [parse_adoc_file]
    exact parseSections_no_heading _
      (fun l hl => h l ((List.dropWhile_sublist _).mem hl))
  refine ⟨hs, ?_⟩
  rw [hs]
  rfl

/-- Witness for C7's amended statement. -/
theorem parse_adoc_file_no_l2_returns_witness :
    (∀ l ∈ ["= Doc\n", "hello\n"],
        ¬(pyStartsWith l ("=") = true ∧ 2 ≤ (pySplitFirst l).length)) ∧
      ((parse_adoc_file ["= Doc\n", "hello\n"]).sections = [] ∧
        organize_sections (parse_adoc_file ["= Doc\n", "hello\n"]).title
            (parse_adoc_file ["= Doc\n", "hello\n"]).sections =
          [⟨(parse_adoc_file ["= Doc\n", "hello\n"]).title, "", true, []⟩]) :=
  ⟨by decide, parse_adoc_file_no_l2_returns _ (by decide)⟩

theorem tagDict_val_nonempty (tags : Tags) (k : String) (v : List String)
    (h2 : ∀ t ∈ tags, 2 ≤ t.length) (hd : tagDict tags k = some v) : v ≠ [] := by
  rw [tagDict] at hd
  obtain ⟨t, hfind, htail⟩ := Option.map_eq_some'.mp hd
  have hmem : t ∈ tags := List.mem_reverse.mp (List.mem_of_find?_eq_some hfind)
  have := h2 t hmem
  cases t with
  | nil => simp at this
  | cons x xs =>
    cases xs with
    | nil => simp at this
    | cons y ys =>
      rw [← htail]
      simp

theorem tags_no_empty_of_min_len (tags : Tags) (h2 : ∀ t ∈ tags, 2 ≤ t.length) :
    tags.any (fun t => t.isEmpty) = false := by
  simp only [List.any_eq_false]
  intro t ht
  have := h2 t ht
  cases t with
  | nil => simp at this
  | cons x xs => simp

theorem validate_index_total (tags : Tags) (h2 : ∀ t ∈ tags, 2 ≤ t.length) :
    ∃ errs, NKBIP01Tags.validate_index_tags tags = some (errs.isEmpty, errs) := by
  have hne := tags_no_empty_of_min_len tags h2
  rw [NKBIP01Tags.validate_index_tags, hne]
  rcases hau : tagDict tags ("auto-update") with _ | v
  · rcases hm : tagDict tags ("m") with _ | w
    · exact ⟨_, rfl⟩
    · rcases w with _ | ⟨w0, ws⟩
      · exact absurd rfl (tagDict_val_nonempty tags _ _ h2 hm)
      · exact ⟨_, rfl⟩
  · rcases v with _ | ⟨v0, vs⟩
    · exact absurd rfl (tagDict_val_nonempty tags _ _ h2 hau)
    · rcases hm : tagDict tags ("m") with _ | w
      · exact ⟨_, rfl⟩
      · rcases w with _ | ⟨w0, ws⟩
        · exact absurd rfl (tagDict_val_nonempty tags _ _ h2 hm)
        · exact ⟨_, rfl⟩

theorem validate_content_total (tags : Tags) (h2 : ∀ t ∈ tags, 2 ≤ t.length) :
    ∃ errs, NKBIP01Tags.validate_content_tags tags = some (errs.isEmpty, errs) := by
  have hne := tags_no_empty_of_min_len tags h2
  rw [NKBIP01Tags.validate_content_tags, hne]
  exact ⟨_, rfl⟩

/-- C8 counterexample: on an input tag list holding an empty tag, or an
`auto-update` tag with no value, the validators do **not** return a pair:
the Python code raises `IndexError` (`tag[0]` in the dict comprehension,
`tag_dict["auto-update"][0]`), which the embedding renders as `none`. -/
theorem validators_raise_counterexample :
    NKBIP01Tags.validate_content_tags [[]] = none ∧
      NKBIP01Tags.validate_index_tags [["auto-update"]] = none := by
  constructor <;> decide

/-- C8 amended: on every tag list whose tags each carry a name and at least
one value (length ≥ 2, as every finished tag set built by this repository
does), both validators return a `(is_valid, violations)` pair —
never a raise — and `is_valid` is true exactly when the violation list is
empty.  On malformed tags (empty, or a value-less `auto-update`/`m` tag)
they raise `IndexError` instead of returning. -/
theorem validators_never_raise (tags : Tags) (h : ∀ t ∈ tags, 2 ≤ t.length) :
    (∃ r, NKBIP01Tags.validate_index_tags tags = some r ∧ (r.1 = true ↔ r.2 = [])) ∧
      (∃ r, NKBIP01Tags.validate_content_tags tags = some r ∧ (r.1 = true ↔ r.2 = [])) := by
  obtain ⟨e1, h1⟩ := validate_index_total tags h
  obtain ⟨e2, h2⟩ := validate_content_total tags h
  exact ⟨⟨_, h1, by simp⟩, ⟨_, h2, by simp⟩⟩

/-- Witness for C8's amended statement. -/
theorem validators_never_raise_witness :
    (∀ t ∈ ([["d", "x"], ["title", "T"]] : Tags), 2 ≤ t.length) ∧
      ((∃ r, NKBIP01Tags.validate_index_tags [["d", "x"], ["title", "T"]] = some r ∧
          (r.1 = true ↔ r.2 = [])) ∧
        (∃ r, NKBIP01Tags.validate_content_tags [["d", "x"], ["title", "T"]] = some r ∧
          (r.1 = true ↔ r.2 = []))) :=
  ⟨by decide, validators_never_raise _ (by decide)⟩

theorem mem_optTag_spec (t : Tag) (k : String) (v : Option String) (ht : t ∈ optTag k v) :
    t.head? = some k ∧ t.length = 2 := by
  cases v with
  | none => simp [optTag] at ht
  | some s =>
    simp [optTag] at ht
    subst ht
    exact ⟨rfl, rfl⟩

theorem mem_authorPart_spec (t : Tag) (a : Option String) (ht : t ∈ authorPart a) :
    t.head? = some ("author") ∧ t.length = 2 := by
  cases a with
  | none => simp [authorPart] at ht
  | some s =>
    rw [authorPart] at ht
    split at ht
    · simp at ht
    · simp at ht
      subst ht
      exact ⟨rfl, rfl⟩

theorem mem_externalPart_spec (t : Tag) (e : Bool) (ht : t ∈ externalPart e) :
    t.head? = some ("external") ∧ t.length = 2 := by
  cases e with
  | false => simp [externalPart] at ht
  | true =>
    simp [externalPart] at ht
    subst ht
    exact ⟨rfl, rfl⟩

/-- Heads that the optional metadata block can produce. -/
def metadataHeads : List String :=
  ["summary", "image", "published_on", "published_by", "source", "i", "k", "t", "author"]

theorem mem_metadataPart_spec (t : Tag) (md : Metadata) (ht : t ∈ metadataPart md) :
    ∃ h, t.head? = some h ∧ t.length = 2 ∧ h ∈ metadataHeads := by
  rw [metadataPart] at ht
  simp only [List.mem_append] at ht
  rcases ht with (((((((h1 | h2) | h3) | h4) | h5) | h6) | h7) | h8) | h9
  · obtain ⟨hh, hl⟩ := mem_optTag_spec _ _ _ h1
    exact ⟨_, hh, hl, by decide⟩
  · obtain ⟨hh, hl⟩ := mem_optTag_spec _ _ _ h2
    exact ⟨_, hh, hl, by decide⟩
  · obtain ⟨hh, hl⟩ := mem_optTag_spec _ _ _ h3
    exact ⟨_, hh, hl, by decide⟩
  · obtain ⟨hh, hl⟩ := mem_optTag_spec _ _ _ h4
    exact ⟨_, hh, hl, by decide⟩
  · obtain ⟨hh, hl⟩ := mem_optTag_spec _ _ _ h5
    exact ⟨_, hh, hl, by decide⟩
  · cases hd : md.doi with
    | none => simp [hd] at h6
    | some v =>
      simp [hd] at h6
      rcases h6 with rfl | rfl
      · exact ⟨("i"), rfl, rfl, by decide⟩
      · exact ⟨("k"), rfl, rfl, by decide⟩
  · cases hi : md.isbn with
    | none => simp [hi] at h7
    | some v =>
      by_cases hdn : md.doi = none <;> simp [hi, hdn] at h7
      · rcases h7 with rfl | rfl
        · exact ⟨("i"), rfl, rfl, by decide⟩
        · exact ⟨("k"), rfl, rfl, by decide⟩
      · subst h7
        exact ⟨("i"), rfl, rfl, by decide⟩
  · cases htg : md.tags with
    | none => simp [htg] at h8
    | some ts =>
      simp [htg] at h8
      obtain ⟨x, _, rfl⟩ := h8
      exact ⟨("t"), rfl, rfl, by decide⟩
  · cases haa : md.additional_authors with
    | none => simp [haa] at h9
    | some as' =>
      simp [haa] at h9
      obtain ⟨x, _, rfl⟩ := h9
      exact ⟨("author"), rfl, rfl, by decide⟩

/-- Every tag of the optional block of `create_index_tags` has a known head
and a name-value shape. -/
theorem mem_indexOptional_spec (t : Tag) (author : Option String) (ext : Bool)
    (metadata : Option Metadata)
    (ht : t ∈ authorPart author ++ externalPart ext ++ indexMetadataTags metadata) :
    ∃ h, t.head? = some h ∧ t.length = 2 ∧ h ∈ ("external" :: metadataHeads) := by
  simp only [List.mem_append] at ht
  rcases ht with (h1 | h2) | h3
  · obtain ⟨hh, hl⟩ := mem_authorPart_spec _ _ h1
    exact ⟨_, hh, hl, by decide⟩
  · obtain ⟨hh, hl⟩ := mem_externalPart_spec _ _ h2
    exact ⟨_, hh, hl, by decide⟩
  · cases metadata with
    | none => simp [indexMetadataTags] at h3
    | some md =>
      rw [indexMetadataTags] at h3
      obtain ⟨h, hh, hl, hmem⟩ := mem_metadataPart_spec _ _ h3
      exact ⟨h, hh, hl, List.mem_cons_of_mem _ hmem⟩

theorem mem_wikilinkPart_spec (t : Tag) (wikilinks : Option (List Wikilink))
    (ht : t ∈ wikilinkTags wikilinks) :
    t.head? = some ("wikilink") ∧ t.length = 5 := by
  cases wikilinks with
  | none => simp [wikilinkTags] at ht
  | some links =>
    rw [wikilinkTags] at ht
    obtain ⟨l, _, rfl⟩ := List.mem_map.mp ht
    exact ⟨rfl, rfl⟩

theorem tagDict_append_skip (pre post : Tags) (k : String)
    (h : ∀ t ∈ post, t.head? ≠ some k) :
    tagDict (pre ++ post) k = tagDict pre k := by
  rw [tagDict, tagDict, List.reverse_append, List.find?_append]
  have hnone : post.reverse.find? (fun t => t.head? == some k) = none := by
    rw [List.find?_eq_none]
    intro t ht
    simp [h t (List.mem_reverse.mp ht)]
  rw [hnone, Option.none_or]

theorem peErrors_no_p (ts : Tags) (h : ∀ t ∈ ts, t.head? ≠ some ("p")) :
    ∀ i, peErrors ts none i = [] := by
  induction ts with
  | nil => intro i; rfl
  | cons t rest ih =>
    intro i
    have hp : (t.head? == some ("p")) = false := by
      simp [h t (List.mem_cons_self t rest)]
    simp only [peErrors, hp, Bool.false_eq_true, if_false]
    exact ih (fun x hx => h x (List.mem_cons_of_mem t hx)) (i + 1)

/-- C4 amended: validating freshly built content tags always yields
`(true, [])`; freshly built index tags fail validation (no `a` reference
yet — see the counterexample), but validating them after the pipeline's own
`add_reference_to_index` has appended a reference yields `(true, [])`
whenever the supplied auto-update value is one of `yes`/`ask`/`no`. -/
theorem round_trip_validates
    (ctitle cd_tag content_type clang : String) (wikilinks : Option (List Wikilink))
    (ititle id_tag : String) (author : Option String)
    (ptype auto_update ilang ver : String) (ext : Bool) (md : Option Metadata)
    (hau : auto_update = ("yes") ∨ auto_update = ("ask") ∨ auto_update = ("no"))
    (ev : EventRef) (ref_d relay : String) :
    NKBIP01Tags.validate_content_tags
        (NKBIP01Tags.create_content_tags ctitle cd_tag content_type clang wikilinks) =
      some (true, []) ∧
      NKBIP01Tags.validate_index_tags
          (add_reference_to_index
            (NKBIP01Tags.create_index_tags ititle id_tag author ptype auto_update ilang ver
              ext md) ev ref_d relay) =
        some (true, []) := by
  constructor
  · -- content side
    have hlen : ∀ t ∈ NKBIP01Tags.create_content_tags ctitle cd_tag content_type clang
        wikilinks, 2 ≤ t.length := by
      intro t ht
      rcases List.mem_append.mp ht with h | h
      · simp at h
        rcases h with rfl | rfl | rfl | rfl | rfl <;> simp
      · have := (mem_wikilinkPart_spec t wikilinks h).2
        omega
    have hne := tags_no_empty_of_min_len _ hlen
    have hskip : ∀ k, k ≠ ("wikilink") → ∀ t ∈ wikilinkTags wikilinks,
        t.head? ≠ some k := by
      intro k hk t ht heq
      rw [(mem_wikilinkPart_spec t wikilinks ht).1] at heq
      exact hk (Option.some.inj heq).symm
    have hd : tagDict (NKBIP01Tags.create_content_tags ctitle cd_tag content_type clang
        wikilinks) ("d") = some [cd_tag] := by
      rw [NKBIP01Tags.create_content_tags,
        tagDict_append_skip _ _ _ (hskip _ (by decide))]
      simp [tagDict, List.find?]
    have htitle : tagDict (NKBIP01Tags.create_content_tags ctitle cd_tag content_type clang
        wikilinks) ("title") = some [ctitle] := by
      rw [NKBIP01Tags.create_content_tags,
        tagDict_append_skip _ _ _ (hskip _ (by decide))]
      simp [tagDict, List.find?]
    have hreq : requiredErrors (NKBIP01Tags.create_content_tags ctitle cd_tag content_type
        clang wikilinks) ["d", "title"] = [] := by
      simp [requiredErrors, hd, htitle]
    rw [NKBIP01Tags.validate_content_tags, hne, hreq]
    rfl
  · -- index side
    have hassoc : add_reference_to_index
        (NKBIP01Tags.create_index_tags ititle id_tag author ptype auto_update ilang ver
          ext md) ev ref_d relay =
        indexBaseTags ititle id_tag auto_update ptype ilang ver ext ++
          ((authorPart author ++ externalPart ext ++ indexMetadataTags md) ++
            [create_reference_tag ev.kind ev.pubkey ref_d ev.id relay]) := by
      simp [add_reference_to_index, NKBIP01Tags.create_index_tags, List.append_assoc]
    have hpost : ∀ t ∈ (authorPart author ++ externalPart ext ++ indexMetadataTags md) ++
        [create_reference_tag ev.kind ev.pubkey ref_d ev.id relay],
        ∃ h, t.head? = some h ∧ 2 ≤ t.length ∧
          h ∈ ("a" :: "external" :: metadataHeads) := by
      intro t ht
      rcases List.mem_append.mp ht with h | h
      · obtain ⟨x, hh, hl, hmem⟩ := mem_indexOptional_spec t author ext md h
        exact ⟨x, hh, by omega, List.mem_cons_of_mem _ hmem⟩
      · simp only [List.mem_singleton] at h
        subst h
        exact ⟨("a"), rfl, by simp [create_reference_tag], by decide⟩
    have hskip : ∀ k, k ∉ ("a" :: "external" :: metadataHeads) →
        ∀ t ∈ (authorPart author ++ externalPart ext ++ indexMetadataTags md) ++
          [create_reference_tag ev.kind ev.pubkey ref_d ev.id relay],
        t.head? ≠ some k := by
      intro k hk t ht heq
      obtain ⟨x, hh, _, hmem⟩ := hpost t ht
      rw [hh] at heq
      obtain rfl := Option.some.inj heq
      exact hk hmem
    have hlen : ∀ t ∈ add_reference_to_index
        (NKBIP01Tags.create_index_tags ititle id_tag author ptype auto_update ilang ver
          ext md) ev ref_d relay, 2 ≤ t.length := by
      rw [hassoc]
      intro t ht
      rcases List.mem_append.mp ht with h | h
      · simp [indexBaseTags] at h
        rcases h with rfl | rfl | rfl | rfl | rfl | rfl | rfl | rfl | rfl <;> simp
      · obtain ⟨x, _, hl, _⟩ := hpost t h
        exact hl
    have hne := tags_no_empty_of_min_len _ hlen
    have hd : tagDict (add_reference_to_index
        (NKBIP01Tags.create_index_tags ititle id_tag author ptype auto_update ilang ver
          ext md) ev ref_d relay) ("d") = some [id_tag] := by
      rw [hassoc, tagDict_append_skip _ _ _ (hskip _ (by decide))]
      simp [tagDict, indexBaseTags, List.find?]
    have htitle : tagDict (add_reference_to_index
        (NKBIP01Tags.create_index_tags ititle id_tag author ptype auto_update ilang ver
          ext md) ev ref_d relay) ("title") = some [ititle] := by
      rw [hassoc, tagDict_append_skip _ _ _ (hskip _ (by decide))]
      simp [tagDict, indexBaseTags, List.find?]
    have hdau : tagDict (add_reference_to_index
        (NKBIP01Tags.create_index_tags ititle id_tag author ptype auto_update ilang ver
          ext md) ev ref_d relay) ("auto-update") = some [auto_update] := by
      rw [hassoc, tagDict_append_skip _ _ _ (hskip _ (by decide))]
      simp [tagDict, indexBaseTags, List.find?]
    have hdm : tagDict (add_reference_to_index
        (NKBIP01Tags.create_index_tags ititle id_tag author ptype auto_update ilang ver
          ext md) ev ref_d relay) ("m") = some [("application/json")] := by
      rw [hassoc, tagDict_append_skip _ _ _ (hskip _ (by decide))]
      simp [tagDict, indexBaseTags, List.find?]
    have hdM : tagDict (add_reference_to_index
        (NKBIP01Tags.create_index_tags ititle id_tag author ptype auto_update ilang ver
          ext md) ev ref_d relay) ("M") =
        some [if ext then NOSTR_CATEGORIES_external else NOSTR_CATEGORIES_index] := by
      rw [hassoc, tagDict_append_skip _ _ _ (hskip _ (by decide))]
      simp [tagDict, indexBaseTags, List.find?]
    have hreq : requiredErrors (add_reference_to_index
        (NKBIP01Tags.create_index_tags ititle id_tag author ptype auto_update ilang ver
          ext md) ev ref_d relay) ["d", "title", "auto-update", "m", "M"] = [] := by
      simp [requiredErrors, hd, htitle, hdau, hdm, hdM]
    have hpe : peErrors (add_reference_to_index
        (NKBIP01Tags.create_index_tags ititle id_tag author ptype auto_update ilang ver
          ext md) ev ref_d relay) none 0 = [] := by
      apply peErrors_no_p
      rw [hassoc]
      intro t ht
      rcases List.mem_append.mp ht with h | h
      · simp [indexBaseTags] at h
        rcases h with rfl | rfl | rfl | rfl | rfl | rfl | rfl | rfl | rfl <;> simp
      · exact hskip _ (by decide) t h
    have ha : (add_reference_to_index
        (NKBIP01Tags.create_index_tags ititle id_tag author ptype auto_update ilang ver
          ext md) ev ref_d relay).any (fun t => t.head? == some ("a")) = true := by
      rw [hassoc]
      refine List.any_eq_true.mpr
        ⟨create_reference_tag ev.kind ev.pubkey ref_d ev.id relay, ?_, ?_⟩
      · exact List.mem_append_right _ (List.mem_append_right _ (List.mem_singleton.mpr rfl))
      · simp [create_reference_tag]
    rw [NKBIP01Tags.validate_index_tags, hne, hdau, hdm]
    simp [checkVal, hreq, ha, hpe]
    intro h1 h2
    tauto

/-- C4 counterexample: an index built by `create_index_tags` with every
required field supplied fails validation as-is — `create_index_tags` never
adds an `a` reference while `validate_index_tags` demands one — so the
build-then-validate round trip returns `is_valid = false` for index
units. -/
theorem index_round_trip_counterexample :
    NKBIP01Tags.validate_index_tags
        (NKBIP01Tags.create_index_tags ("T") ("t") none ("book") ("yes") ("en") ("1")
          false none) =
      some (false, [("Index must include at least one \x27a\x27 tag reference")]) := by
  decide

/-- Witness for C4's amended statement. -/
theorem round_trip_validates_witness :
    (("yes" : String) = ("yes") ∨ ("yes" : String) = ("ask") ∨ ("yes" : String) = ("no")) ∧
      (NKBIP01Tags.validate_content_tags
          (NKBIP01Tags.create_content_tags ("S") ("s") ("asciidoc") ("en") none) =
        some (true, []) ∧
        NKBIP01Tags.validate_index_tags
            (add_reference_to_index
              (NKBIP01Tags.create_index_tags ("T") ("t") none ("book") ("yes") ("en") ("1")
                false none) ⟨30041, "pk", "id"⟩ ("s") ("wss://r")) =
          some (true, [])) :=
  ⟨Or.inl rfl,
    round_trip_validates ("S") ("s") ("asciidoc") ("en") none ("T") ("t") none ("book")
      ("yes") ("en") ("1") false none (Or.inl rfl) ⟨30041, "pk", "id"⟩ ("s") ("wss://r")⟩

/-- C5 counterexample: the single group `organize_sections` produces for the
document `Doc` with one level-2 section `A` is the **root** group, yet the
tag set `create_content_event` builds for its child carries the compound
identifier `doc-a` (it calls `create_section_tags(parent, title,
namespace=True)` at `src/nkbip_converter.py` line 319, root or not), not
the plain slug `a` = `clean_tag "A"` the claim requires for root
children. -/
theorem content_identifier_counterexample :
    organize_sections ("Doc") [⟨2, "A", "b"⟩] =
        [⟨"Doc", "", true, [⟨"A", "b"⟩]⟩] ∧
      firstDTagValue (create_section_tags ("Doc") ("A") none true) = some ("doc-a") ∧
      some ("doc-a") ≠ some (clean_tag ("A")) := by
  refine ⟨?_, ?_, ?_⟩ <;> decide

/-- C5 amended: every content unit's identifier is the namespaced compound
`{group-identifier}-{section-identifier}` whether its group is root or
not — `create_content_event` passes `namespace=True` unconditionally
(`src/nkbip_converter.py` line 319), and its later appends never touch the
`d` tag at position 0. -/
theorem content_identifier_always_namespaced (doc_title : String) (sections : List Sec)
    (g : SectionGroup) (hg : g ∈ organize_sections doc_title sections)
    (s : L2Sec) (hs : s ∈ g.l2_sections) :
    firstDTagValue (create_section_tags g.title s.title none true) =
      some (clean_tag g.title ++ ("-") ++ clean_tag s.title) := by
  simp [create_section_tags, NKBIP01Tags.create_content_tags, firstDTagValue, List.find?]

/-- Witness for C5's amended statement at the root group of a one-section
document. -/
theorem content_identifier_always_namespaced_witness :
    ((⟨"Doc", "", true, [⟨"A", "b"⟩]⟩ : SectionGroup) ∈
        organize_sections ("Doc") [⟨2, "A", "b"⟩]) ∧
      ((⟨"A", "b"⟩ : L2Sec) ∈
        (⟨"Doc", "", true, [⟨"A", "b"⟩]⟩ : SectionGroup).l2_sections) ∧
      firstDTagValue (create_section_tags ("Doc") ("A") none true) =
        some (clean_tag ("Doc") ++ ("-") ++ clean_tag ("A")) := by
  have h1 : organize_sections ("Doc") [⟨2, "A", "b"⟩] =
      [⟨"Doc", "", true, [⟨"A", "b"⟩]⟩] := by decide
  have hg : (⟨"Doc", "", true, [⟨"A", "b"⟩]⟩ : SectionGroup) ∈
      organize_sections ("Doc") [⟨2, "A", "b"⟩] := by
    rw [h1]
    exact List.mem_singleton.mpr rfl
  have hs : (⟨"A", "b"⟩ : L2Sec) ∈
      (⟨"Doc", "", true, [⟨"A", "b"⟩]⟩ : SectionGroup).l2_sections :=
    List.mem_singleton.mpr rfl
  exact ⟨hg, hs, content_identifier_always_namespaced ("Doc") [⟨2, "A", "b"⟩] _ hg _ hs⟩

theorem char_toNat_ofNat_of_lt (n : Nat) (h : n < 55296) : (Char.ofNat n).toNat = n := by
  rw [Char.ofNat, dif_pos (Or.inl h)]
  rfl

theorem pyLowerChar_idem (c : Char) : pyLowerChar (pyLowerChar c) = pyLowerChar c := by
  by_cases h : 65 ≤ c.toNat ∧ c.toNat ≤ 90
  · have h1 : pyLowerChar c = Char.ofNat (c.toNat + 32) := by
      rw [pyLowerChar, if_pos h]
    have h32 : (Char.ofNat (c.toNat + 32)).toNat = c.toNat + 32 :=
      char_toNat_ofNat_of_lt _ (by omega)
    rw [h1, pyLowerChar, if_neg (by rw [h32]; omega)]
  · have h1 : pyLowerChar c = c := by
      rw [pyLowerChar, if_neg h]
    rw [h1, h1]

theorem lower_fixed_of_mem_map (c : Char) (cs : List Char)
    (h : c ∈ cs.map pyLowerChar) : pyLowerChar c = c := by
  obtain ⟨x, _, rfl⟩ := List.mem_map.mp h
  exact pyLowerChar_idem x

theorem collapseDS_cons_nonDS (a : Char) (r : List Char) (h : isDS a = false) :
    collapseDS (a :: r) = a :: collapseDS r := by
  cases r with
  | nil => simp [collapseDS, h]
  | cons b r' => simp [collapseDS, h]

theorem collapseDS_mem (l : List Char) :
    ∀ c ∈ collapseDS l, c = '-' ∨ (c ∈ l ∧ isDS c = false) := by
  induction l using collapseDS.induct with
  | case1 => intro c hc; simp [collapseDS] at hc
  | case2 c0 h =>
    intro c hc
    simp [collapseDS, h] at hc
    exact Or.inl hc
  | case3 c0 h =>
    intro c hc
    simp [collapseDS, h] at hc
    subst hc
    exact Or.inr ⟨List.mem_singleton.mpr rfl, by simpa using h⟩
  | case4 a b rest ha hb ih =>
    intro c hc
    rw [collapseDS, if_pos ha, if_pos hb] at hc
    rcases ih c hc with h | ⟨hm, hds⟩
    · exact Or.inl h
    · exact Or.inr ⟨List.mem_cons_of_mem a hm, hds⟩
  | case5 a b rest ha hb ih =>
    intro c hc
    rw [collapseDS, if_pos ha, if_neg (by simp [hb])] at hc
    rcases List.mem_cons.mp hc with rfl | hc'
    · exact Or.inl rfl
    · rcases ih c hc' with h | ⟨hm, hds⟩
      · exact Or.inl h
      · exact Or.inr ⟨List.mem_cons_of_mem a hm, hds⟩
  | case6 a b rest ha ih =>
    intro c hc
    rw [collapseDS, if_neg (by simp [ha])] at hc
    rcases List.mem_cons.mp hc with rfl | hc'
    · exact Or.inr ⟨List.mem_cons_self _ _, by simpa using ha⟩
    · rcases ih c hc' with h | ⟨hm, hds⟩
      · exact Or.inl h
      · exact Or.inr ⟨List.mem_cons_of_mem a hm, hds⟩

theorem noAdjDS_cons_of (a : Char) (l : List Char) (ha : isDS a = false)
    (hl : noAdjDS l = true) : noAdjDS (a :: l) = true := by
  cases l with
  | nil => rfl
  | cons b r => simp [noAdjDS, ha, hl]

theorem noAdjDS_tail (a : Char) (l : List Char) (h : noAdjDS (a :: l) = true) :
    noAdjDS l = true := by
  cases l with
  | nil => rfl
  | cons b r =>
    rw [noAdjDS, Bool.and_eq_true] at h
    exact h.2

theorem noAdjDS_collapseDS (l : List Char) : noAdjDS (collapseDS l) = true := by
  induction l using collapseDS.induct with
  | case1 => rfl
  | case2 c0 h => simp [collapseDS, h, noAdjDS]
  | case3 c0 h => simp [collapseDS, h, noAdjDS]
  | case4 a b rest ha hb ih => rw [collapseDS, if_pos ha, if_pos hb]; exact ih
  | case5 a b rest ha hb ih =>
    have hb' : isDS b = false := by simpa using hb
    rw [collapseDS, if_pos ha, if_neg (by simp [hb'])]
    rw [collapseDS_cons_nonDS b rest hb'] at ih ⊢
    cases hr : collapseDS rest with
    | nil => simp [noAdjDS, hb']
    | cons x xs =>
      rw [hr] at ih
      simp [noAdjDS, hb']
      rw [noAdjDS] at ih
      simp at ih
      exact ih.2
  | case6 a b rest ha ih =>
    have ha' : isDS a = false := by simpa using ha
    rw [collapseDS, if_neg (by simp [ha'])]
    exact noAdjDS_cons_of a _ ha' ih

theorem noAdjDS_dropWhile (p : Char → Bool) (l : List Char)
    (h : noAdjDS l = true) : noAdjDS (l.dropWhile p) = true := by
  induction l with
  | nil => rfl
  | cons a r ih =>
    rw [List.dropWhile_cons]
    split
    · exact ih (noAdjDS_tail a r h)
    · exact h

theorem noAdjDS_append_left (l t : List Char) (h : noAdjDS (l ++ t) = true) :
    noAdjDS l = true := by
  induction l using noAdjDS.induct with
  | case1 => rfl
  | case2 c0 => rfl
  | case3 a b rest ih =>
    rw [List.cons_append, List.cons_append] at h
    rw [noAdjDS, Bool.and_eq_true] at h ⊢
    refine ⟨h.1, ih ?_⟩
    rw [List.cons_append]
    exact h.2

theorem noAdjDS_prefix (l₁ l₂ : List Char) (hp : l₁ <+: l₂)
    (h : noAdjDS l₂ = true) : noAdjDS l₁ = true := by
  obtain ⟨t, rfl⟩ := hp
  exact noAdjDS_append_left l₁ t h

theorem noAdjDS_stripDash (l : List Char) (h : noAdjDS l = true) :
    noAdjDS (stripDash l) = true := by
  rw [stripDash]
  exact noAdjDS_prefix _ _ (List.rdropWhile_prefix _ _)
    (noAdjDS_dropWhile _ _ h)

theorem mem_stripDash (c : Char) (l : List Char) (h : c ∈ stripDash l) : c ∈ l := by
  rw [stripDash] at h
  exact (List.dropWhile_sublist _).subset ((List.rdropWhile_prefix _ _).sublist.subset h)

theorem collapseDS_eq_self (l : List Char) (h1 : noAdjDS l = true)
    (h2 : ∀ c ∈ l, isDS c = true → c = '-') : collapseDS l = l := by
  induction l using collapseDS.induct with
  | case1 => rfl
  | case2 c0 h =>
    rw [collapseDS, if_pos h, h2 c0 (List.mem_singleton.mpr rfl) h]
  | case3 c0 h =>
    rw [collapseDS, if_neg h]
  | case4 a b rest ha hb ih =>
    exfalso
    rw [noAdjDS, Bool.and_eq_true] at h1
    simp [ha, hb] at h1
  | case5 a b rest ha hb ih =>
    have hb' : isDS b = false := by simpa using hb
    rw [collapseDS, if_pos ha, if_neg (by simp [hb'])]
    have ha2 : a = '-' := h2 a (List.mem_cons_self _ _) ha
    subst ha2
    rw [ih (noAdjDS_tail _ _ h1) (fun c hc hds => h2 c (List.mem_cons_of_mem _ hc) hds)]
  | case6 a b rest ha ih =>
    have ha' : isDS a = false := by simpa using ha
    rw [collapseDS, if_neg (by simp [ha'])]
    rw [ih (noAdjDS_tail _ _ h1) (fun c hc hds => h2 c (List.mem_cons_of_mem _ hc) hds)]

theorem dropWhile_eq_self_of_prefix (p : Char → Bool) (y z : List Char)
    (hy : y.dropWhile p = y) (hz : z <+: y) : z.dropWhile p = z := by
  cases z with
  | nil => rfl
  | cons a z' =>
    obtain ⟨t, ht⟩ := hz
    have hpa : p a = false := by
      rw [← ht, List.cons_append, List.dropWhile_cons] at hy
      by_contra hcon
      rw [if_pos (by simpa using hcon)] at hy
      have hlen := congrArg List.length hy
      rw [List.length_cons] at hlen
      have hle := (List.dropWhile_sublist (l := z' ++ t) p).length_le
      omega
    rw [List.dropWhile_cons, if_neg (by simp [hpa])]

theorem stripDash_idempotent (l : List Char) :
    stripDash (stripDash l) = stripDash l := by
  rw [stripDash, stripDash]
  have h1 : List.dropWhile (fun c => c == '-')
      (List.dropWhile (fun c => c == '-') l) =
      List.dropWhile (fun c => c == '-') l := List.dropWhile_idempotent _ _
  have h2 : List.dropWhile (fun c => c == '-')
      ((List.dropWhile (fun c => c == '-') l).rdropWhile (fun c => c == '-')) =
      (List.dropWhile (fun c => c == '-') l).rdropWhile (fun c => c == '-') :=
    dropWhile_eq_self_of_prefix _ _ _ h1 (List.rdropWhile_prefix _ _)
  rw [h2, List.rdropWhile_idempotent]

theorem cleanChars_mem (cs : List Char) :
    ∀ c ∈ cleanChars cs,
      c = '-' ∨ (keepChar c = true ∧ pyLowerChar c = c ∧ isDS c = false) := by
  intro c h
  rw [cleanChars] at h
  have h1 := mem_stripDash _ _ h
  rcases collapseDS_mem _ c h1 with rfl | ⟨hm, hds⟩
  · exact Or.inl rfl
  · exact Or.inr ⟨List.of_mem_filter hm,
      lower_fixed_of_mem_map _ _ (List.mem_of_mem_filter hm), hds⟩

theorem cleanChars_idempotent (cs : List Char) :
    cleanChars (cleanChars cs) = cleanChars cs := by
  have hmem := cleanChars_mem cs
  have hmap : (cleanChars cs).map pyLowerChar = cleanChars cs := by
    refine (List.map_congr_left ?_).trans (List.map_id _)
    intro a ha
    rcases hmem a ha with rfl | ⟨_, hfix, _⟩
    · decide
    · exact hfix
  have hfil : (cleanChars cs).filter keepChar = cleanChars cs := by
    rw [List.filter_eq_self]
    intro a ha
    rcases hmem a ha with rfl | ⟨hk, _, _⟩
    · decide
    · exact hk
  have hnadj : noAdjDS (cleanChars cs) = true := by
    rw [cleanChars]
    exact noAdjDS_stripDash _ (noAdjDS_collapseDS _)
  have hdash : ∀ c ∈ cleanChars cs, isDS c = true → c = '-' := by
    intro c hc hds
    rcases hmem c hc with rfl | ⟨_, _, hds'⟩
    · rfl
    · rw [hds] at hds'
      exact absurd hds' (by simp)
  have hcol : collapseDS (cleanChars cs) = cleanChars cs :=
    collapseDS_eq_self _ hnadj hdash
  have hstrip : stripDash (cleanChars cs) = cleanChars cs := by
    rw [cleanChars]
    exact stripDash_idempotent _
  calc cleanChars (cleanChars cs)
      = stripDash (collapseDS (((cleanChars cs).map pyLowerChar).filter keepChar)) := rfl
    _ = stripDash (collapseDS (cleanChars cs)) := by rw [hmap, hfil]
    _ = stripDash (cleanChars cs) := by rw [hcol]
    _ = cleanChars cs := hstrip

theorem strippedPunct_lower_fixed (c : Char) (h : strippedPunct c = true) :
    pyLowerChar c = c := by
  rw [strippedPunct] at h
  simp [isAsciiPunct] at h
  obtain ⟨⟨hr, h45⟩, h95⟩ := h
  rw [pyLowerChar, if_neg]
  rcases hr with ((⟨a, b⟩ | ⟨a, b⟩) | ⟨a, b⟩) | ⟨a, b⟩ <;> omega

theorem strippedPunct_not_kept (c : Char) (h : strippedPunct c = true) :
    keepChar c = false := by
  rw [strippedPunct] at h
  simp [isAsciiPunct] at h
  obtain ⟨⟨hr, h45⟩, h95⟩ := h
  have hd : c ≠ '-' := by
    intro hc
    subst hc
    exact h45 rfl
  have hu : c ≠ '_' := by
    intro hc
    subst hc
    exact h95 rfl
  have hs1 : c ≠ ' ' := by
    intro hc
    subst hc
    revert hr
    decide
  have hs2 : c ≠ '\t' := by
    intro hc
    subst hc
    revert hr
    decide
  have hs3 : c ≠ '\n' := by
    intro hc
    subst hc
    revert hr
    decide
  have hs4 : c ≠ '\x0b' := by
    intro hc
    subst hc
    revert hr
    decide
  have hs5 : c ≠ '\x0c' := by
    intro hc
    subst hc
    revert hr
    decide
  have hs6 : c ≠ '\r' := by
    intro hc
    subst hc
    revert hr
    decide
  have hsp : isPySpace c = false := by
    simp [isPySpace, hs1, hs2, hs3, hs4, hs5, hs6]
  have hw : isWordChar c = false := by
    rcases hr with ((⟨a, b⟩ | ⟨a, b⟩) | ⟨a, b⟩) | ⟨a, b⟩ <;>
      simp [isWordChar, hu] <;> omega
  simp [keepChar, hw, hsp, hd]

theorem filter_map_eq_of_punct : ∀ (xs ys : List Char), xs.length = ys.length →
    (∀ p ∈ xs.zip ys, p.1 = p.2 ∨ (strippedPunct p.1 = true ∧ strippedPunct p.2 = true)) →
    (xs.map pyLowerChar).filter keepChar = (ys.map pyLowerChar).filter keepChar := by
  intro xs
  induction xs with
  | nil =>
    intro ys hlen _
    cases ys with
    | nil => rfl
    | cons y ys' => simp at hlen
  | cons x xs' ih =>
    intro ys hlen hall
    cases ys with
    | nil => simp at hlen
    | cons y ys' =>
      have hh := hall (x, y) (by simp [List.zip_cons_cons])
      have ht : ∀ p ∈ xs'.zip ys',
          p.1 = p.2 ∨ (strippedPunct p.1 = true ∧ strippedPunct p.2 = true) := by
        intro p hp
        exact hall p (by simp [List.zip_cons_cons, hp])
      have hlen' : xs'.length = ys'.length := by simpa using hlen
      rw [List.map_cons, List.map_cons, List.filter_cons, List.filter_cons]
      rcases hh with heq | ⟨hp1, hp2⟩
      · simp only at heq
        rw [heq, ih ys' hlen' ht]
      · have k1 : keepChar (pyLowerChar x) = false := by
          rw [strippedPunct_lower_fixed x hp1]
          exact strippedPunct_not_kept x hp1
        have k2 : keepChar (pyLowerChar y) = false := by
          rw [strippedPunct_lower_fixed y hp2]
          exact strippedPunct_not_kept y hp2
        rw [k1, k2]
        simp only [Bool.false_eq_true, if_false]
        exact ih ys' hlen' ht

/-- C6 counterexample: `a-b` and `a.b` differ only in punctuation (one
punctuation character replaced by another at the same position), yet their
slugs differ — `clean_tag` keeps hyphens, so `a-b` maps to `a-b` while
`a.b` maps to `ab`. -/
theorem clean_tag_punct_counterexample :
    differOnlyInPunct ("a-b") ("a.b") = true ∧
      clean_tag ("a-b") ≠ clean_tag ("a.b") := by
  constructor <;> decide

/-- C6 amended: identifier derivation is idempotent (`clean_tag` twice is
`clean_tag` once); titles differing only in letter case (equal images under
per-character lowercasing) give the same slug; and titles differing only
in punctuation **that the cleaner strips** (ASCII punctuation other than
hyphen and underscore, which `clean_tag` keeps) give the same slug.
Titles differing in kept punctuation can give different slugs (see the
counterexample). -/
theorem clean_tag_idempotent_case_punct :
    (∀ s : String, clean_tag (clean_tag s) = clean_tag s) ∧
      (∀ s t : String, s.data.map pyLowerChar = t.data.map pyLowerChar →
        clean_tag s = clean_tag t) ∧
      (∀ s t : String, differOnlyInStrippedPunct s t = true →
        clean_tag s = clean_tag t) := by
  refine ⟨?_, ?_, ?_⟩
  · intro s
    exact congrArg String.mk (cleanChars_idempotent s.data)
  · intro s t h
    rw [clean_tag, clean_tag, cleanChars, cleanChars, h]
  · intro s t h
    rw [differOnlyInStrippedPunct, Bool.and_eq_true] at h
    obtain ⟨hlen, hall⟩ := h
    rw [List.all_eq_true] at hall
    have hall' : ∀ p ∈ s.data.zip t.data,
        p.1 = p.2 ∨ (strippedPunct p.1 = true ∧ strippedPunct p.2 = true) := by
      intro p hp
      have := hall p hp
      rcases Bool.or_eq_true _ _ |>.mp this with h1 | h2
      · exact Or.inl (by simpa using h1)
      · rw [Bool.and_eq_true] at h2
        exact Or.inr h2
    have hlen' : s.data.length = t.data.length := by simpa using hlen
    rw [clean_tag, clean_tag, cleanChars, cleanChars,
      filter_map_eq_of_punct s.data t.data hlen' hall']

/-- Witness for C6's amended statement: idempotence at `--A  b!`,
case-collision at `A-b` / `a-B`, stripped-punctuation collision at
`a.b` / `a,b`. -/
theorem clean_tag_idempotent_case_punct_witness :
    (("A-b" : String).data.map pyLowerChar = ("a-B" : String).data.map pyLowerChar) ∧
      differOnlyInStrippedPunct ("a.b") ("a,b") = true ∧
      clean_tag (clean_tag ("--A  b!")) = clean_tag ("--A  b!") ∧
      clean_tag ("A-b") = clean_tag ("a-B") ∧
      clean_tag ("a.b") = clean_tag ("a,b") :=
  ⟨by decide, by decide,
    clean_tag_idempotent_case_punct.1 ("--A  b!"),
    clean_tag_idempotent_case_punct.2.1 ("A-b") ("a-B") (by decide),
    clean_tag_idempotent_case_punct.2.2 ("a.b") ("a,b") (by decide)⟩
